import Mathlib

/-
Verification of the buildkit solver-next scheduler (solver-next/scheduler.go)
against its natural-language specification.

The scheduler is embedded shallowly: edges and pipes are heap objects addressed
by natural-number identifiers; the Go maps `incoming`, `outgoing` (and the
cache-key index) are association lists; the dispatcher queue is a list together
with the `waitq` presence set.  The run loop, `unpark` bodies and pipe
internals live outside the scheduler source, so `unpark` is an arbitrary state
transformer parameter and the pipe is carried as observable per-pipe state
(sender/receiver completion, pending update, cancel flag), following the pipe
contract of the specification.
-/

namespace BuildkitSched

/-! ### Association-list maps

Go maps keyed by edge (or pipe, or cache-key) identifiers are embedded as
association lists with unique keys.  A lookup of an absent key yields `none`;
the scheduler reads `incoming`/`outgoing` entries with a `[]` default, exactly
as a Go map read of a missing key yields a nil slice. -/

def alookup {α : Type} (m : List (Nat × α)) (k : Nat) : Option α :=
  match m with
  | [] => none
  | (a, b) :: t => if a = k then some b else alookup t k

def ainsert {α : Type} (m : List (Nat × α)) (k : Nat) (v : α) : List (Nat × α) :=
  match m with
  | [] => [(k, v)]
  | (a, b) :: t => if a = k then (k, v) :: t else (a, b) :: ainsert t k v

def aerase {α : Type} (m : List (Nat × α)) (k : Nat) : List (Nat × α) :=
  match m with
  | [] => []
  | (a, b) :: t => if a = k then aerase t k else (a, b) :: aerase t k

@[simp] theorem alookup_nil {α : Type} (k : Nat) : alookup ([] : List (Nat × α)) k = none := rfl

theorem alookup_ainsert {α : Type} (m : List (Nat × α)) (k k' : Nat) (v : α) :
    alookup (ainsert m k v) k' = if k' = k then some v else alookup m k' := by
  induction m with
  | nil =>
    by_cases h : k' = k
    · simp [ainsert, alookup, h]
    · have h2 : ¬(k = k') := fun hh => h hh.symm
      simp [ainsert, alookup, h, h2]
  | cons hd t ih =>
    obtain ⟨a, b⟩ := hd
    by_cases hak : a = k
    · subst hak
      by_cases h : k' = a
      · simp [ainsert, alookup, h]
      · have h2 : ¬(a = k') := fun hh => h hh.symm
        simp [ainsert, alookup, h, h2]
    · by_cases h : k' = k
      · subst h
        simp [ainsert, alookup, hak, ih]
      · simp [ainsert, alookup, hak, ih, h]

theorem alookup_aerase {α : Type} (m : List (Nat × α)) (k k' : Nat) :
    alookup (aerase m k) k' = if k' = k then none else alookup m k' := by
  induction m with
  | nil => simp [aerase, alookup]
  | cons hd t ih =>
    obtain ⟨a, b⟩ := hd
    by_cases hak : a = k
    · subst hak
      by_cases h : k' = a
      · subst h
        simp [aerase, alookup, ih]
      · have h2 : ¬(a = k') := fun hh => h hh.symm
        simp [aerase, alookup, h, h2, ih]
    · by_cases h : k' = k
      · subst h
        simp [aerase, alookup, hak, ih]
      · simp [aerase, alookup, hak, ih, h]

/-! ### Data model -/

/-- Modelled from the spec: observable state of one pipe (spec section 4.1; the
pipe implementation lives in `solver-next/internal/pipe`, outside the scheduler
source).  `target`/`fromE` are the edge-pipe wrapper fields `Target`/`From` of
`scheduler.go`; `senderCompleted` is `Sender.Status().Completed`,
`receiverCompleted` is `Receiver.Status().Completed`, `hasUpdate` is consumed
by `Receiver.Receive()`, and `receiverCanceled` records `Receiver.Cancel()`. -/
structure EdgePipe where
  target : Nat
  fromE : Option Nat
  senderCompleted : Bool
  receiverCompleted : Bool
  hasUpdate : Bool
  receiverCanceled : Bool
deriving DecidableEq, Repr, Inhabited

/-- A cache key together with a selector, as in `CacheKeyWithSelector`.  The Go
zero value of the selector is the empty string. -/
structure CacheKeyWithSelector where
  cacheKey : Nat
  selector : String
deriving DecidableEq, Repr, Inhabited

/-- One entry of `secondaryExporters`, as in `expDep`: a dependency index with
a selector-tagged cache key. -/
structure ExpDep where
  depIndex : Nat
  key : CacheKeyWithSelector
deriving DecidableEq, Repr, Inhabited

/-- Per-dependency metadata of an edge used by `mergeTo`: the direct cache keys
`d.keys`, the optional `d.slowCacheKey`, and the cache key of the materialized
result `d.result.CacheKey()` when a result is present. -/
structure DepState where
  keys : List Nat
  slowCacheKey : Option Nat
  result : Option Nat
deriving DecidableEq, Repr, Inhabited

/-- The scheduler-visible state of one edge: the `IgnoreCache` vertex option,
the scheduling flags `hasActiveOutgoing` and `keysDidChange`, the value of
`currentIndexKey()`, the dependency metadata `deps` with the selectors
`cacheMap.Deps[i].Selector`, and the `secondaryExporters` list. -/
structure EdgeState where
  ignoreCache : Bool
  hasActiveOutgoing : Bool
  keysDidChange : Bool
  currentIndexKey : Option Nat
  deps : List DepState
  depSelectors : List String
  secondaryExporters : List ExpDep
deriving DecidableEq, Repr, Inhabited

/-- The scheduler state of `scheduler.go`: the dispatcher queue (`next`/`last`
chain) with its presence set `waitq`, the `incoming` and `outgoing` maps from
edges to edge-pipe lists, the heaps of edge and pipe objects, the cache-key
index consulted on merge, and a fresh-pipe counter. -/
structure SchedState where
  waitq : List Nat
  queue : List Nat
  incoming : List (Nat × List Nat)
  outgoing : List (Nat × List Nat)
  edges : List (Nat × EdgeState)
  pipes : List (Nat × EdgePipe)
  index : List (Nat × Nat)
  nextPipeId : Nat
deriving DecidableEq, Repr, Inhabited

namespace SchedState

/-- Dereference an edge identifier. -/
def edge (st : SchedState) (e : Nat) : EdgeState := (alookup st.edges e).getD default

/-- Dereference a pipe identifier. -/
def pipe (st : SchedState) (p : Nat) : EdgePipe := (alookup st.pipes p).getD default

/-- Read `s.incoming[e]`; a missing key is the nil slice. -/
def inc (st : SchedState) (e : Nat) : List Nat := (alookup st.incoming e).getD []

/-- Read `s.outgoing[e]`; a missing key is the nil slice. -/
def out (st : SchedState) (e : Nat) : List Nat := (alookup st.outgoing e).getD []

/-- Write an edge object. -/
def putEdge (st : SchedState) (e : Nat) (v : EdgeState) : SchedState :=
  { st with edges := ainsert st.edges e v }

/-- Write a pipe object. -/
def putPipe (st : SchedState) (p : Nat) (v : EdgePipe) : SchedState :=
  { st with pipes := ainsert st.pipes p v }

/-- Write `s.incoming[e] = l`. -/
def putIncoming (st : SchedState) (e : Nat) (l : List Nat) : SchedState :=
  { st with incoming := ainsert st.incoming e l }

/-- Write `s.outgoing[e] = l`. -/
def putOutgoing (st : SchedState) (e : Nat) (l : List Nat) : SchedState :=
  { st with outgoing := ainsert st.outgoing e l }

@[simp] theorem edge_putPipe (st : SchedState) (p : Nat) (v : EdgePipe) (e : Nat) :
    (st.putPipe p v).edge e = st.edge e := rfl

@[simp] theorem edge_putIncoming (st : SchedState) (e' : Nat) (l : List Nat) (e : Nat) :
    (st.putIncoming e' l).edge e = st.edge e := rfl

@[simp] theorem edge_putOutgoing (st : SchedState) (e' : Nat) (l : List Nat) (e : Nat) :
    (st.putOutgoing e' l).edge e = st.edge e := rfl

@[simp] theorem edge_putEdge (st : SchedState) (e' : Nat) (v : EdgeState) (e : Nat) :
    (st.putEdge e' v).edge e = if e = e' then v else st.edge e := by
  simp only [putEdge, edge, alookup_ainsert]
  split <;> rfl

@[simp] theorem pipe_putEdge (st : SchedState) (e : Nat) (v : EdgeState) (p : Nat) :
    (st.putEdge e v).pipe p = st.pipe p := rfl

@[simp] theorem pipe_putIncoming (st : SchedState) (e : Nat) (l : List Nat) (p : Nat) :
    (st.putIncoming e l).pipe p = st.pipe p := rfl

@[simp] theorem pipe_putOutgoing (st : SchedState) (e : Nat) (l : List Nat) (p : Nat) :
    (st.putOutgoing e l).pipe p = st.pipe p := rfl

@[simp] theorem pipe_putPipe (st : SchedState) (p' : Nat) (v : EdgePipe) (p : Nat) :
    (st.putPipe p' v).pipe p = if p = p' then v else st.pipe p := by
  simp only [putPipe, pipe, alookup_ainsert]
  split <;> rfl

@[simp] theorem inc_putPipe (st : SchedState) (p : Nat) (v : EdgePipe) (e : Nat) :
    (st.putPipe p v).inc e = st.inc e := rfl

@[simp] theorem inc_putEdge (st : SchedState) (e' : Nat) (v : EdgeState) (e : Nat) :
    (st.putEdge e' v).inc e = st.inc e := rfl

@[simp] theorem inc_putOutgoing (st : SchedState) (e' : Nat) (l : List Nat) (e : Nat) :
    (st.putOutgoing e' l).inc e = st.inc e := rfl

@[simp] theorem inc_putIncoming (st : SchedState) (e' : Nat) (l : List Nat) (e : Nat) :
    (st.putIncoming e' l).inc e = if e = e' then l else st.inc e := by
  simp only [putIncoming, inc, alookup_ainsert]
  split <;> rfl

@[simp] theorem out_putPipe (st : SchedState) (p : Nat) (v : EdgePipe) (e : Nat) :
    (st.putPipe p v).out e = st.out e := rfl

@[simp] theorem out_putEdge (st : SchedState) (e' : Nat) (v : EdgeState) (e : Nat) :
    (st.putEdge e' v).out e = st.out e := rfl

@[simp] theorem out_putIncoming (st : SchedState) (e' : Nat) (l : List Nat) (e : Nat) :
    (st.putIncoming e' l).out e = st.out e := rfl

@[simp] theorem out_putOutgoing (st : SchedState) (e' : Nat) (l : List Nat) (e : Nat) :
    (st.putOutgoing e' l).out e = if e = e' then l else st.out e := by
  simp only [putOutgoing, out, alookup_ainsert]
  split <;> rfl

@[simp] theorem waitq_putPipe (st : SchedState) (p : Nat) (v : EdgePipe) :
    (st.putPipe p v).waitq = st.waitq := rfl

@[simp] theorem waitq_putEdge (st : SchedState) (e : Nat) (v : EdgeState) :
    (st.putEdge e v).waitq = st.waitq := rfl

@[simp] theorem waitq_putIncoming (st : SchedState) (e : Nat) (l : List Nat) :
    (st.putIncoming e l).waitq = st.waitq := rfl

@[simp] theorem waitq_putOutgoing (st : SchedState) (e : Nat) (l : List Nat) :
    (st.putOutgoing e l).waitq = st.waitq := rfl

@[simp] theorem inc_setMaps (s : SchedState) (m1 m2 : List (Nat × List Nat)) (f : Nat) :
    ({ s with incoming := m1, outgoing := m2 } : SchedState).inc f = (alookup m1 f).getD [] := rfl

@[simp] theorem out_setMaps (s : SchedState) (m1 m2 : List (Nat × List Nat)) (f : Nat) :
    ({ s with incoming := m1, outgoing := m2 } : SchedState).out f = (alookup m2 f).getD [] := rfl

@[simp] theorem edge_setMaps (s : SchedState) (m1 m2 : List (Nat × List Nat)) (f : Nat) :
    ({ s with incoming := m1, outgoing := m2 } : SchedState).edge f = s.edge f := rfl

@[simp] theorem pipe_setMaps (s : SchedState) (m1 m2 : List (Nat × List Nat)) (p : Nat) :
    ({ s with incoming := m1, outgoing := m2 } : SchedState).pipe p = s.pipe p := rfl

@[simp] theorem waitq_setMaps (s : SchedState) (m1 m2 : List (Nat × List Nat)) :
    ({ s with incoming := m1, outgoing := m2 } : SchedState).waitq = s.waitq := rfl

@[simp] theorem incoming_setMaps (s : SchedState) (m1 m2 : List (Nat × List Nat)) :
    ({ s with incoming := m1, outgoing := m2 } : SchedState).incoming = m1 := rfl

@[simp] theorem outgoing_setMaps (s : SchedState) (m1 m2 : List (Nat × List Nat)) :
    ({ s with incoming := m1, outgoing := m2 } : SchedState).outgoing = m2 := rfl

@[simp] theorem incoming_putEdge (st : SchedState) (e : Nat) (v : EdgeState) :
    (st.putEdge e v).incoming = st.incoming := rfl

@[simp] theorem outgoing_putEdge (st : SchedState) (e : Nat) (v : EdgeState) :
    (st.putEdge e v).outgoing = st.outgoing := rfl

end SchedState

open SchedState

/-! ### Dispatcher queue: `signal` and the dequeue step of `loop`

`signal` (scheduler.go lines 181-195) appends a dispatcher node for `e` and
records `e` in `waitq` exactly when `e` is not yet in `waitq`.  The dequeue
step is the head-removal portion of `loop` (lines 83-92): it unlinks the head
dispatcher node and deletes its edge from `waitq`. -/

/-- Translation of `Scheduler.signal`. -/
def signal (st : SchedState) (e : Nat) : SchedState :=
  if e ∈ st.waitq then st
  else { st with queue := st.queue ++ [e], waitq := st.waitq ++ [e] }

/-- Translation of the queue-popping section of `Scheduler.loop`: returns the
dequeued edge (or `none` when the queue is empty) and the updated state. -/
def dequeue (st : SchedState) : Option Nat × SchedState :=
  match st.queue with
  | [] => (none, st)
  | e :: t => (some e, { st with queue := t, waitq := st.waitq.filter (fun x => x != e) })

@[simp] theorem signal_incoming (st : SchedState) (e : Nat) :
    (signal st e).incoming = st.incoming := by
  unfold signal
  split <;> rfl

@[simp] theorem signal_outgoing (st : SchedState) (e : Nat) :
    (signal st e).outgoing = st.outgoing := by
  unfold signal
  split <;> rfl

@[simp] theorem signal_edges (st : SchedState) (e : Nat) :
    (signal st e).edges = st.edges := by
  unfold signal
  split <;> rfl

@[simp] theorem signal_pipes (st : SchedState) (e : Nat) :
    (signal st e).pipes = st.pipes := by
  unfold signal
  split <;> rfl

@[simp] theorem signal_index (st : SchedState) (e : Nat) :
    (signal st e).index = st.index := by
  unfold signal
  split <;> rfl

@[simp] theorem signal_edge (st : SchedState) (e f : Nat) :
    (signal st e).edge f = st.edge f := by
  simp [SchedState.edge]

@[simp] theorem signal_pipe (st : SchedState) (e : Nat) (p : Nat) :
    (signal st e).pipe p = st.pipe p := by
  simp [SchedState.pipe]

@[simp] theorem signal_inc (st : SchedState) (e f : Nat) :
    (signal st e).inc f = st.inc f := by
  simp [SchedState.inc]

@[simp] theorem signal_out (st : SchedState) (e f : Nat) :
    (signal st e).out f = st.out f := by
  simp [SchedState.out]

theorem mem_waitq_signal (st : SchedState) (e : Nat) : e ∈ (signal st e).waitq := by
  unfold signal
  split <;> simp_all

/-! ### Merge protocol: `mergeTo` (scheduler.go lines 278-316) -/

/-- The body of the `incoming[src]` transfer loop of `mergeTo`: under the
pipe's lock rewrite its `Target` to `tg`, then append the pipe to
`incoming[tg]`. -/
def mergeIncStep (tg : Nat) (s : SchedState) (p : Nat) : SchedState :=
  let s1 := s.putPipe p { s.pipe p with target := tg }
  s1.putIncoming tg (s1.inc tg ++ [p])

/-- The `incoming[src]` transfer loop of `mergeTo`. -/
def mergeIncoming (tg : Nat) (s : SchedState) (l : List Nat) : SchedState :=
  l.foldl (mergeIncStep tg) s

/-- The body of the `outgoing[src]` transfer loop of `mergeTo`: rewrite the
pipe's `From` to `tg`, append the pipe to `outgoing[tg]`, then cancel the
receiver. -/
def mergeOutStep (tg : Nat) (s : SchedState) (p : Nat) : SchedState :=
  let s1 := s.putPipe p { s.pipe p with fromE := some tg }
  let s2 := s1.putOutgoing tg (s1.out tg ++ [p])
  s2.putPipe p { s2.pipe p with receiverCanceled := true }

/-- The `outgoing[src]` transfer loop of `mergeTo`. -/
def mergeOutgoing (tg : Nat) (s : SchedState) (l : List Nat) : SchedState :=
  l.foldl (mergeOutStep tg) s

/-- The `secondaryExporters` entries produced for dependency `i` of the merged
source edge: one per direct key with the dependency's selector, one for the
slow cache key (with the zero-value selector, as in scheduler.go line 306),
and one for the materialized result's cache key with the dependency's
selector. -/
def depExporters (i : Nat) (d : DepState) (sel : String) : List ExpDep :=
  d.keys.map (fun k => ⟨i, ⟨k, sel⟩⟩)
    ++ (match d.slowCacheKey with
        | some sk => [⟨i, ⟨sk, ""⟩⟩]
        | none => [])
    ++ (match d.result with
        | some rk => [⟨i, ⟨rk, sel⟩⟩]
        | none => [])

/-- The exporter entries contributed by the dependencies of a source edge,
indexed from `i` upward. -/
def exportersFromDeps (sels : List String) (i : Nat) : List DepState → List ExpDep
  | [] => []
  | d :: rest => depExporters i d (sels.getD i "") ++ exportersFromDeps sels (i + 1) rest

/-- All `secondaryExporters` entries `mergeTo` folds from the source edge's
dependency metadata (scheduler.go lines 301-311). -/
def secondaryExportersFrom (e : EdgeState) : List ExpDep :=
  exportersFromDeps e.depSelectors 0 e.deps

/-- The state transformation of a non-refused `mergeTo`: transfer the
incoming and outgoing pipes of `src` to `target`, delete `src` from both
maps, signal `target`, and fold the source's dependency cache keys into the
target's `secondaryExporters`. -/
def mergeFinish (st : SchedState) (target src : Nat) : SchedState :=
  let st1 := mergeIncoming target st (st.inc src)
  let st2 := mergeOutgoing target st1 (st1.out src)
  let st3 := { st2 with incoming := aerase st2.incoming src,
                        outgoing := aerase st2.outgoing src }
  let st4 := signal st3 target
  st4.putEdge target
    { st4.edge target with secondaryExporters :=
        (st4.edge target).secondaryExporters ++ secondaryExportersFrom (st4.edge src) }

/-- Translation of `Scheduler.mergeTo`: refuse when the target honors the
cache but the source must re-execute; otherwise perform the transfer. -/
def mergeTo (st : SchedState) (target src : Nat) : Bool × SchedState :=
  if !(st.edge target).ignoreCache && (st.edge src).ignoreCache then
    (false, st)
  else
    (true, mergeFinish st target src)

/-! ### Dispatch step (scheduler.go lines 102-178) -/

/-- The body of the receive loop of `dispatch` for one outgoing receiver:
consume a pending update via `Receive()` (collecting the receiver into
`updates` when one was pending), and mark `hasActiveOutgoing` when the
receiver is not completed. -/
def receiveStep (e : Nat) (ac : SchedState × List Nat) (p : Nat) : SchedState × List Nat :=
  let s := ac.1
  let pp := s.pipe p
  let s1 := s.putPipe p { pp with hasUpdate := false }
  let upds := if pp.hasUpdate then ac.2 ++ [p] else ac.2
  let s2 := if !pp.receiverCompleted then
      s1.putEdge e { s1.edge e with hasActiveOutgoing := true }
    else s1
  (s2, upds)

/-- The receive phase of `dispatch` (lines 112-121): clear
`e.hasActiveOutgoing`, then run the receive loop over the snapshot of
outgoing receivers, producing the `updates` list. -/
def receivePhase (st : SchedState) (e : Nat) (outs : List Nat) : SchedState × List Nat :=
  outs.foldl (receiveStep e) (st.putEdge e { st.edge e with hasActiveOutgoing := false }, [])

/-- The incoming half of the prune phase of `dispatch` (lines 129-139): keep
only the incoming pipes whose sender is not completed, deleting the map entry
when the pruned list is empty. -/
def pruneIncomingHalf (st : SchedState) (e : Nat) : SchedState × List Nat :=
  let openIncoming := (st.inc e).filter (fun p => !(st.pipe p).senderCompleted)
  (if openIncoming.isEmpty then { st with incoming := aerase st.incoming e }
   else st.putIncoming e openIncoming, openIncoming)

/-- The outgoing half of the prune phase of `dispatch` (lines 141-151): keep
only the outgoing pipes whose receiver is not completed, deleting the map
entry when the pruned list is empty. -/
def pruneOutgoingHalf (st : SchedState) (e : Nat) : SchedState × List Nat :=
  let openOutgoing := (st.out e).filter (fun p => !(st.pipe p).receiverCompleted)
  (if openOutgoing.isEmpty then { st with outgoing := aerase st.outgoing e }
   else st.putOutgoing e openOutgoing, openOutgoing)

/-- The prune phase of `dispatch` (lines 129-151): the incoming half followed
by the outgoing half.  Returns the new state together with `openIncoming` and
`openOutgoing`. -/
def pruneStep (st : SchedState) (e : Nat) : SchedState × List Nat × List Nat :=
  let r1 := pruneIncomingHalf st e
  let r2 := pruneOutgoingHalf r1.1 e
  (r2.1, r1.2, r2.2)

/-- Modelled from the spec: `index.LoadOrStore(key, edge)` is the process-wide
cache-key registry with atomic compare-and-insert semantics (spec section 6);
its implementation is not part of the scheduler source.  It returns the edge
already registered for the key, or registers the given edge and returns
`none`. -/
def loadOrStore (idx : List (Nat × Nat)) (k e : Nat) : Option Nat × List (Nat × Nat) :=
  match alookup idx k with
  | some o => (some o, idx)
  | none => (none, ainsert idx k e)

/-- Instrumentation record of the merge-on-key-change phase of `dispatch`:
which flag and key were observed, whether and with which key `LoadOrStore` was
called, its result, the `mergeTo` attempt and outcome, and the `SetEdge` calls
issued to the edge factory. -/
structure MergeLog where
  kdc : Bool
  curKey : Option Nat
  loadOrStoreKey : Option Nat
  origEdge : Option Nat
  mergeAttempt : Option (Nat × Nat)
  mergeSucceeded : Bool
  setEdgeCalls : List (Nat × Nat)
deriving DecidableEq, Repr, Inhabited

/-- The merge-on-key-change phase of `dispatch` (lines 154-166): when
`e.keysDidChange` is set and `currentIndexKey()` yields a key, register the
key via `LoadOrStore`; when another edge already holds the key, attempt
`mergeTo(origEdge, e)` and on success record the `SetEdge(e.edge, origEdge)`
call; finally clear `keysDidChange`. -/
def mergePhase (st : SchedState) (e : Nat) : SchedState × MergeLog :=
  if (st.edge e).keysDidChange then
    match (st.edge e).currentIndexKey with
    | some k =>
      let r := loadOrStore st.index k e
      let stI := { st with index := r.2 }
      match r.1 with
      | some orig =>
        let m := mergeTo stI orig e
        let stF := m.2.putEdge e { m.2.edge e with keysDidChange := false }
        (stF, ⟨true, some k, some k, some orig, some (orig, e), m.1,
               if m.1 then [(e, orig)] else []⟩)
      | none =>
        (stI.putEdge e { stI.edge e with keysDidChange := false },
         ⟨true, some k, some k, none, none, false, []⟩)
    | none =>
      (st.putEdge e { st.edge e with keysDidChange := false },
       ⟨true, none, none, none, none, false, []⟩)
  else
    (st, ⟨false, (st.edge e).currentIndexKey, none, none, none, false, []⟩)

/-- Instrumentation record of one dispatch turn. -/
structure DispatchLog where
  updates : List Nat
  hasActiveOutgoing : Bool
  openIncoming : List Nat
  openOutgoing : List Nat
  merge : MergeLog
deriving DecidableEq, Repr, Inhabited

/-- Translation of `Scheduler.dispatch` for edge `e`.  The edge's `unpark`
routine is external to the scheduler and is passed as an arbitrary state
transformer; the snapshots handed to it are the pre-state `incoming` and
`outgoing` entries, as in the source.  The final half-open validation turns
the `panic` calls of lines 172-177 into `none` (no normal return). -/
def dispatch (unpark : SchedState → SchedState) (st : SchedState) (e : Nat) :
    Option (SchedState × DispatchLog) :=
  let r1 := receivePhase st e (st.out e)
  let st1 := r1.1
  let hao := (st1.edge e).hasActiveOutgoing
  let st2 := unpark st1
  let pr := pruneStep st2 e
  let st3 := pr.1
  let openIncoming := pr.2.1
  let openOutgoing := pr.2.2
  let mr := mergePhase st3 e
  if !openIncoming.isEmpty && openOutgoing.isEmpty then none
  else if openIncoming.isEmpty && !openOutgoing.isEmpty then none
  else some (mr.1, ⟨r1.2, hao, openIncoming, openOutgoing, mr.2⟩)

/-! ### Pipe creation and the build entry (scheduler.go lines 198-258) -/

/-- Translation of `Scheduler.newPipe`: allocate a fresh edge-pipe with the
given `Target` and `From`, signal the target, and register the pipe in
`outgoing[from]` (when a `from` edge exists) and `incoming[target]`.  The
completion callbacks it installs are wake-ups handled by `signal` and are not
part of the state. -/
def newPipe (st : SchedState) (target : Nat) (fromE : Option Nat) : Nat × SchedState :=
  let pid := st.nextPipeId
  let p : EdgePipe :=
    { target := target, fromE := fromE, senderCompleted := false,
      receiverCompleted := false, hasUpdate := false, receiverCanceled := false }
  let st1 := { st with pipes := ainsert st.pipes pid p, nextPipeId := pid + 1 }
  let st2 := signal st1 target
  let st3 := match fromE with
    | some f => st2.putOutgoing f (st2.out f ++ [pid])
    | none => st2
  let st4 := st3.putIncoming target (st3.inc target ++ [pid])
  (pid, st4)

/-! ### Characterization of the merge transfer loops -/

@[simp] theorem mergeIncStep_outgoing (tg : Nat) (s : SchedState) (p : Nat) :
    (mergeIncStep tg s p).outgoing = s.outgoing := rfl

@[simp] theorem mergeIncStep_edges (tg : Nat) (s : SchedState) (p : Nat) :
    (mergeIncStep tg s p).edges = s.edges := rfl

@[simp] theorem mergeIncStep_waitq (tg : Nat) (s : SchedState) (p : Nat) :
    (mergeIncStep tg s p).waitq = s.waitq := rfl

theorem mergeIncoming_outgoing (tg : Nat) (l : List Nat) (s : SchedState) :
    (mergeIncoming tg s l).outgoing = s.outgoing := by
  induction l generalizing s with
  | nil => rfl
  | cons p t ih => simpa [mergeIncoming, List.foldl] using ih (mergeIncStep tg s p)

theorem mergeIncoming_edges (tg : Nat) (l : List Nat) (s : SchedState) :
    (mergeIncoming tg s l).edges = s.edges := by
  induction l generalizing s with
  | nil => rfl
  | cons p t ih => simpa [mergeIncoming, List.foldl] using ih (mergeIncStep tg s p)

theorem mergeIncoming_waitq (tg : Nat) (l : List Nat) (s : SchedState) :
    (mergeIncoming tg s l).waitq = s.waitq := by
  induction l generalizing s with
  | nil => rfl
  | cons p t ih => simpa [mergeIncoming, List.foldl] using ih (mergeIncStep tg s p)

theorem mergeIncoming_out (tg : Nat) (l : List Nat) (s : SchedState) (f : Nat) :
    (mergeIncoming tg s l).out f = s.out f := by
  simp [SchedState.out, mergeIncoming_outgoing]

theorem mergeIncoming_edge (tg : Nat) (l : List Nat) (s : SchedState) (f : Nat) :
    (mergeIncoming tg s l).edge f = s.edge f := by
  simp [SchedState.edge, mergeIncoming_edges]

theorem mergeIncoming_pipe (tg : Nat) (l : List Nat) (s : SchedState) (q : Nat) :
    (mergeIncoming tg s l).pipe q =
      if q ∈ l then { s.pipe q with target := tg } else s.pipe q := by
  induction l generalizing s with
  | nil => simp [mergeIncoming]
  | cons p t ih =>
    have step : mergeIncoming tg s (p :: t) = mergeIncoming tg (mergeIncStep tg s p) t := rfl
    rw [step, ih]
    by_cases hq : q = p
    · subst hq
      by_cases hm : q ∈ t <;> simp [mergeIncStep, hm]
    · by_cases hm : q ∈ t <;> simp [mergeIncStep, hq, hm]

theorem mergeIncoming_inc_self (tg : Nat) (l : List Nat) (s : SchedState) :
    (mergeIncoming tg s l).inc tg = s.inc tg ++ l := by
  induction l generalizing s with
  | nil => simp [mergeIncoming]
  | cons p t ih =>
    have step : mergeIncoming tg s (p :: t) = mergeIncoming tg (mergeIncStep tg s p) t := rfl
    rw [step, ih]
    simp [mergeIncStep]

@[simp] theorem mergeOutStep_incoming (tg : Nat) (s : SchedState) (p : Nat) :
    (mergeOutStep tg s p).incoming = s.incoming := rfl

@[simp] theorem mergeOutStep_edges (tg : Nat) (s : SchedState) (p : Nat) :
    (mergeOutStep tg s p).edges = s.edges := rfl

@[simp] theorem mergeOutStep_waitq (tg : Nat) (s : SchedState) (p : Nat) :
    (mergeOutStep tg s p).waitq = s.waitq := rfl

theorem mergeOutgoing_incoming (tg : Nat) (l : List Nat) (s : SchedState) :
    (mergeOutgoing tg s l).incoming = s.incoming := by
  induction l generalizing s with
  | nil => rfl
  | cons p t ih => simpa [mergeOutgoing, List.foldl] using ih (mergeOutStep tg s p)

theorem mergeOutgoing_edges (tg : Nat) (l : List Nat) (s : SchedState) :
    (mergeOutgoing tg s l).edges = s.edges := by
  induction l generalizing s with
  | nil => rfl
  | cons p t ih => simpa [mergeOutgoing, List.foldl] using ih (mergeOutStep tg s p)

theorem mergeOutgoing_waitq (tg : Nat) (l : List Nat) (s : SchedState) :
    (mergeOutgoing tg s l).waitq = s.waitq := by
  induction l generalizing s with
  | nil => rfl
  | cons p t ih => simpa [mergeOutgoing, List.foldl] using ih (mergeOutStep tg s p)

theorem mergeOutgoing_inc (tg : Nat) (l : List Nat) (s : SchedState) (f : Nat) :
    (mergeOutgoing tg s l).inc f = s.inc f := by
  simp [SchedState.inc, mergeOutgoing_incoming]

theorem mergeOutgoing_edge (tg : Nat) (l : List Nat) (s : SchedState) (f : Nat) :
    (mergeOutgoing tg s l).edge f = s.edge f := by
  simp [SchedState.edge, mergeOutgoing_edges]

theorem mergeOutgoing_pipe (tg : Nat) (l : List Nat) (s : SchedState) (q : Nat) :
    (mergeOutgoing tg s l).pipe q =
      if q ∈ l then { s.pipe q with fromE := some tg, receiverCanceled := true }
      else s.pipe q := by
  induction l generalizing s with
  | nil => simp [mergeOutgoing]
  | cons p t ih =>
    have step : mergeOutgoing tg s (p :: t) = mergeOutgoing tg (mergeOutStep tg s p) t := rfl
    rw [step, ih]
    by_cases hq : q = p
    · subst hq
      by_cases hm : q ∈ t <;> simp [mergeOutStep, hm]
    · by_cases hm : q ∈ t <;> simp [mergeOutStep, hq, hm]

theorem mergeOutgoing_out_self (tg : Nat) (l : List Nat) (s : SchedState) :
    (mergeOutgoing tg s l).out tg = s.out tg ++ l := by
  induction l generalizing s with
  | nil => simp [mergeOutgoing]
  | cons p t ih =>
    have step : mergeOutgoing tg s (p :: t) = mergeOutgoing tg (mergeOutStep tg s p) t := rfl
    rw [step, ih]
    simp [mergeOutStep]

/-! ### Characterization of the receive loop -/

theorem receive_fold (e : Nat) (l : List Nat) (s st0 : SchedState) (acc : List Nat)
    (hagree : ∀ p ∈ l, s.pipe p = st0.pipe p) (hnd : l.Nodup) :
    (l.foldl (receiveStep e) (s, acc)).2
        = acc ++ l.filter (fun p => (st0.pipe p).hasUpdate)
    ∧ ((l.foldl (receiveStep e) (s, acc)).1.edge e).hasActiveOutgoing
        = ((s.edge e).hasActiveOutgoing
            || l.any (fun p => !(st0.pipe p).receiverCompleted)) := by
  induction l generalizing s acc with
  | nil => simp
  | cons p t ih =>
    have hp : s.pipe p = st0.pipe p := hagree p (by simp)
    have hpt : p ∉ t := (List.nodup_cons.mp hnd).1
    have hnd' : t.Nodup := (List.nodup_cons.mp hnd).2
    have hfold : (p :: t).foldl (receiveStep e) (s, acc)
        = t.foldl (receiveStep e) (receiveStep e (s, acc) p) := rfl
    have hstep : receiveStep e (s, acc) p
        = ((if !(s.pipe p).receiverCompleted then
              (s.putPipe p { s.pipe p with hasUpdate := false }).putEdge e
                { (s.putPipe p { s.pipe p with hasUpdate := false }).edge e with
                    hasActiveOutgoing := true }
            else s.putPipe p { s.pipe p with hasUpdate := false }),
           (if (s.pipe p).hasUpdate then acc ++ [p] else acc)) := rfl
    have hagree' : ∀ q ∈ t, (receiveStep e (s, acc) p).1.pipe q = st0.pipe q := by
      intro q hq
      have hqp : ¬(q = p) := fun hh => hpt (hh ▸ hq)
      rw [hstep]
      split <;> simp [hqp, hagree q (List.mem_cons_of_mem p hq)]
    obtain ⟨ih1, ih2⟩ := ih (receiveStep e (s, acc) p).1
      (receiveStep e (s, acc) p).2 hagree' hnd'
    constructor
    · rw [hfold]
      rw [ih1, hstep]
      by_cases hu : (st0.pipe p).hasUpdate
      · simp [hp, hu]
      · simp [hp, hu]
    · rw [hfold]
      rw [ih2, hstep]
      by_cases hc : (st0.pipe p).receiverCompleted
      · simp [hp, hc, Bool.or_assoc]
      · simp [hp, hc, Bool.or_assoc]

theorem receivePhase_spec (st : SchedState) (e : Nat) (outs : List Nat)
    (hnd : outs.Nodup) :
    (receivePhase st e outs).2 = outs.filter (fun p => (st.pipe p).hasUpdate)
    ∧ ((receivePhase st e outs).1.edge e).hasActiveOutgoing
        = outs.any (fun p => !(st.pipe p).receiverCompleted) := by
  have h := receive_fold e outs
    (st.putEdge e { st.edge e with hasActiveOutgoing := false }) st []
    (by intro p hp; simp) hnd
  simpa [receivePhase] using h

/-- Translation of the entry section of `Scheduler.build`: resolve the edge
via `EdgeFactory.GetEdge`; when the factory does not know the descriptor,
return the "invalid request" error with no state change; otherwise create the
synthetic root pipe (with no `from` edge) whose completion the caller then
waits on.  The blocking wait and context cancellation are concurrency outside
the shallow embedding. -/
def build (getEdge : Nat → Option Nat) (st : SchedState) (ed : Nat) :
    Except String Nat × SchedState :=
  match getEdge ed with
  | none => (Except.error "invalid request for build", st)
  | some e =>
    let r := newPipe st e none
    (Except.ok r.1, r.2)

/-! ### Queue discipline invariant -/

/-- The dispatcher-queue invariant: the queued-edge list has no duplicates and
`waitq` holds exactly the queued edges. -/
def QueueInv (st : SchedState) : Prop :=
  st.queue.Nodup ∧ ∀ x, x ∈ st.waitq ↔ x ∈ st.queue

theorem signal_of_mem {st : SchedState} {e : Nat} (h : e ∈ st.waitq) :
    signal st e = st := by
  simp [signal, h]

theorem queueInv_signal {st : SchedState} (e : Nat) (hinv : QueueInv st) :
    QueueInv (signal st e) := by
  unfold signal
  split
  · exact hinv
  · rename_i h
    refine ⟨?_, ?_⟩
    · refine hinv.1.append (List.nodup_singleton e) ?_
      intro a ha hb
      rw [List.mem_singleton] at hb
      subst hb
      exact h ((hinv.2 a).mpr ha)
    · intro x
      simp [List.mem_append, hinv.2 x]

theorem queueInv_dequeue {st : SchedState} (hinv : QueueInv st) :
    QueueInv (dequeue st).2 := by
  unfold dequeue
  cases hq : st.queue with
  | nil => exact hinv
  | cons h t =>
    have hnd := hq ▸ hinv.1
    have hht : h ∉ t := (List.nodup_cons.mp hnd).1
    refine ⟨(List.nodup_cons.mp hnd).2, ?_⟩
    intro x
    constructor
    · intro hx
      rw [List.mem_filter] at hx
      have hxq := (hinv.2 x).mp hx.1
      rw [hq, List.mem_cons] at hxq
      rcases hxq with hxh | hxt
      · subst hxh
        simp at hx
      · exact hxt
    · intro hx
      rw [List.mem_filter]
      refine ⟨(hinv.2 x).mpr (by rw [hq]; exact List.mem_cons_of_mem h hx), ?_⟩
      simp only [bne_iff_ne, ne_eq, decide_eq_true_eq]
      intro hxh
      exact hht (hxh ▸ hx)

theorem queueInv_count {st : SchedState} (hinv : QueueInv st) (x : Nat) :
    x ∈ st.waitq ↔ st.queue.count x = 1 := by
  constructor
  · intro hx
    exact List.count_eq_one_of_mem hinv.1 ((hinv.2 x).mp hx)
  · intro hc
    refine (hinv.2 x).mpr ?_
    have : 0 < st.queue.count x := by omega
    exact List.count_pos_iff.mp this

/-- A quiescent edge state used by the concrete example states. -/
def exEdge : EdgeState :=
  { ignoreCache := false, hasActiveOutgoing := false, keysDidChange := false,
    currentIndexKey := none, deps := [], depSelectors := [], secondaryExporters := [] }

def exEdgeIgnore : EdgeState := { exEdge with ignoreCache := true }

def exEmpty : SchedState :=
  { waitq := [], queue := [], incoming := [], outgoing := [],
    edges := [], pipes := [], index := [], nextPipeId := 0 }

def exRefuse : SchedState :=
  { exEmpty with edges := [(1, exEdge), (2, exEdgeIgnore)] }

/-- C4: the dispatcher queue keeps `waitq` in sync with the FIFO list —
membership in `waitq` is equivalent to occurring exactly once in the queue,
`signal` appends + registers exactly when the edge is absent (so repeated
signals collapse), and the dequeue step of the run loop removes the head and
deletes it from `waitq` in FIFO order. -/
theorem queue_discipline (st : SchedState) (e : Nat) (hinv : QueueInv st) :
    (∀ x, x ∈ (signal st e).waitq ↔ (signal st e).queue.count x = 1)
    ∧ (e ∈ st.waitq → signal st e = st)
    ∧ (e ∉ st.waitq → (signal st e).queue = st.queue ++ [e])
    ∧ e ∈ (signal st e).waitq
    ∧ signal (signal st e) e = signal st e
    ∧ (∀ x, x ∈ (dequeue st).2.waitq ↔ (dequeue st).2.queue.count x = 1)
    ∧ (∀ h t, st.queue = h :: t →
        (dequeue st).1 = some h ∧ (dequeue st).2.queue = t
          ∧ h ∉ (dequeue st).2.waitq) := by
  refine ⟨fun x => queueInv_count (queueInv_signal e hinv) x,
          fun h => signal_of_mem h,
          fun h => by simp [signal, h],
          mem_waitq_signal st e,
          signal_of_mem (mem_waitq_signal st e),
          fun x => queueInv_count (queueInv_dequeue hinv) x,
          ?_⟩
  intro h t hq
  refine ⟨by simp [dequeue, hq], by simp [dequeue, hq], ?_⟩
  simp only [dequeue, hq]
  intro hmem
  rw [List.mem_filter] at hmem
  simpa using hmem.2

/-- Witness for C4 at a concrete state satisfying the invariant. -/
theorem queue_discipline_witness :
    (3 ∈ (signal exEmpty 3).waitq ↔ (signal exEmpty 3).queue.count 3 = 1)
    ∧ (3 ∉ exEmpty.waitq → (signal exEmpty 3).queue = exEmpty.queue ++ [3])
    ∧ 3 ∈ (signal exEmpty 3).waitq
    ∧ signal (signal exEmpty 3) 3 = signal exEmpty 3 := by
  have H := queue_discipline exEmpty 3 ⟨List.nodup_nil, fun x => by simp [exEmpty]⟩
  exact ⟨H.1 3, H.2.2.1, H.2.2.2.1, H.2.2.2.2.1⟩

/-- C3: `mergeTo` returns `false` exactly when the target honors the cache
(`IgnoreCache` unset) while the source must re-execute (`IgnoreCache` set),
and in that case it returns before touching any scheduler state. -/
theorem mergeTo_refusal (st : SchedState) (target src : Nat) :
    ((mergeTo st target src).1 = false ↔
      ((st.edge target).ignoreCache = false ∧ (st.edge src).ignoreCache = true))
    ∧ ((mergeTo st target src).1 = false → (mergeTo st target src).2 = st) := by
  by_cases ha : (st.edge target).ignoreCache
    <;> by_cases hb : (st.edge src).ignoreCache
    <;> simp [mergeTo, ha, hb]

/-- Witness for C3: a refused merge at a concrete state, leaving it intact. -/
theorem mergeTo_refusal_witness :
    (mergeTo exRefuse 1 2).1 = false ∧ (mergeTo exRefuse 1 2).2 = exRefuse := by
  have H := mergeTo_refusal exRefuse 1 2
  have h1 : (mergeTo exRefuse 1 2).1 = false := H.1.mpr ⟨rfl, rfl⟩
  exact ⟨h1, H.2 h1⟩

/-- C9: when the edge factory does not recognize the requested descriptor,
`build` returns the "invalid request" error and leaves the scheduler state
untouched — no pipe is created and no map or queue changes. -/
theorem build_invalid_request (getEdge : Nat → Option Nat) (st : SchedState) (ed : Nat)
    (h : getEdge ed = none) :
    build getEdge st ed = (Except.error "invalid request for build", st) := by
  unfold build
  rw [h]

/-- Witness for C9 at a factory that knows no edges. -/
theorem build_invalid_request_witness :
    build (fun _ => none) exRefuse 5 = (Except.error "invalid request for build", exRefuse) :=
  build_invalid_request (fun _ => none) exRefuse 5 rfl

/-- C7: the prune phase of a dispatch keeps, in order, exactly the incoming
pipes with an uncompleted sender and the outgoing pipes with an uncompleted
receiver, and deletes the map entry of `e` whenever the pruned list is
empty (otherwise it stores exactly the pruned list). -/
theorem dispatch_prune_spec (st : SchedState) (e : Nat) :
    (pruneStep st e).2.1 = (st.inc e).filter (fun p => !(st.pipe p).senderCompleted)
    ∧ (pruneStep st e).2.2 = (st.out e).filter (fun p => !(st.pipe p).receiverCompleted)
    ∧ alookup (pruneStep st e).1.incoming e =
        (if ((st.inc e).filter (fun p => !(st.pipe p).senderCompleted)).isEmpty then none
         else some ((st.inc e).filter (fun p => !(st.pipe p).senderCompleted)))
    ∧ alookup (pruneStep st e).1.outgoing e =
        (if ((st.out e).filter (fun p => !(st.pipe p).receiverCompleted)).isEmpty then none
         else some ((st.out e).filter (fun p => !(st.pipe p).receiverCompleted))) := by
  have houtg : (pruneIncomingHalf st e).1.outgoing = st.outgoing := by
    simp only [pruneIncomingHalf]
    split <;> rfl
  have hpipes : (pruneIncomingHalf st e).1.pipes = st.pipes := by
    simp only [pruneIncomingHalf]
    split <;> rfl
  have hout : ∀ f, (pruneIncomingHalf st e).1.out f = st.out f := by
    intro f
    simp [SchedState.out, houtg]
  have hpipe : ∀ p, (pruneIncomingHalf st e).1.pipe p = st.pipe p := by
    intro p
    simp [SchedState.pipe, hpipes]
  have hincL : ∀ (s : SchedState), alookup (pruneIncomingHalf s e).1.incoming e =
      (if ((s.inc e).filter (fun p => !(s.pipe p).senderCompleted)).isEmpty then none
       else some ((s.inc e).filter (fun p => !(s.pipe p).senderCompleted))) := by
    intro s
    simp only [pruneIncomingHalf]
    split
    · rename_i h
      simp [h, alookup_aerase]
    · rename_i h
      simp [h, SchedState.putIncoming, alookup_ainsert]
  have houtL : ∀ (s : SchedState), alookup (pruneOutgoingHalf s e).1.outgoing e =
      (if ((s.out e).filter (fun p => !(s.pipe p).receiverCompleted)).isEmpty then none
       else some ((s.out e).filter (fun p => !(s.pipe p).receiverCompleted))) := by
    intro s
    simp only [pruneOutgoingHalf]
    split
    · rename_i h
      simp [h, alookup_aerase]
    · rename_i h
      simp [h, SchedState.putOutgoing, alookup_ainsert]
  have hincP : ∀ (s : SchedState), (pruneOutgoingHalf s e).1.incoming = s.incoming := by
    intro s
    simp only [pruneOutgoingHalf]
    split <;> rfl
  have h22 : (pruneStep st e).2.2
      = (st.out e).filter (fun p => !(st.pipe p).receiverCompleted) := by
    show (pruneOutgoingHalf (pruneIncomingHalf st e).1 e).2 = _
    simp only [pruneOutgoingHalf]
    simp only [hout, hpipe]
  refine ⟨rfl, h22, ?_, ?_⟩
  · show alookup (pruneOutgoingHalf (pruneIncomingHalf st e).1 e).1.incoming e = _
    rw [hincP, hincL]
  · show alookup (pruneOutgoingHalf (pruneIncomingHalf st e).1 e).1.outgoing e = _
    rw [houtL]
    simp only [hout, hpipe]

/-! ### Effects of a successful merge -/

theorem mergeTo_success_eq {st st' : SchedState} {target src : Nat}
    (h : mergeTo st target src = (true, st')) : st' = mergeFinish st target src := by
  unfold mergeTo at h
  split at h
  · simp at h
  · injection h with h1 h2
    exact h2.symm

theorem mergeFinish_inc_target (st : SchedState) (target src : Nat) (hne : target ≠ src) :
    (mergeFinish st target src).inc target = st.inc target ++ st.inc src := by
  unfold mergeFinish
  simp only [SchedState.inc_putEdge, signal_inc, SchedState.inc_setMaps]
  rw [alookup_aerase, if_neg hne]
  have h2 : (alookup (mergeOutgoing target (mergeIncoming target st (st.inc src))
        ((mergeIncoming target st (st.inc src)).out src)).incoming target).getD ([] : List Nat)
      = (mergeOutgoing target (mergeIncoming target st (st.inc src))
          ((mergeIncoming target st (st.inc src)).out src)).inc target := rfl
  rw [h2, mergeOutgoing_inc, mergeIncoming_inc_self]

theorem mergeFinish_out_target (st : SchedState) (target src : Nat) (hne : target ≠ src) :
    (mergeFinish st target src).out target = st.out target ++ st.out src := by
  unfold mergeFinish
  simp only [SchedState.out_putEdge, signal_out, SchedState.out_setMaps]
  rw [alookup_aerase, if_neg hne]
  have h2 : (alookup (mergeOutgoing target (mergeIncoming target st (st.inc src))
        ((mergeIncoming target st (st.inc src)).out src)).outgoing target).getD ([] : List Nat)
      = (mergeOutgoing target (mergeIncoming target st (st.inc src))
          ((mergeIncoming target st (st.inc src)).out src)).out target := rfl
  rw [h2, mergeOutgoing_out_self, mergeIncoming_out, mergeIncoming_out]

theorem mergeFinish_pipe_inc (st : SchedState) (target src : Nat) (q : Nat)
    (hq : q ∈ st.inc src) :
    ((mergeFinish st target src).pipe q).target = target := by
  unfold mergeFinish
  simp only [SchedState.pipe_putEdge, signal_pipe, SchedState.pipe_setMaps]
  rw [mergeOutgoing_pipe, mergeIncoming_out, mergeIncoming_pipe]
  by_cases h2 : q ∈ st.out src <;> simp [h2, hq]

theorem mergeFinish_pipe_out (st : SchedState) (target src : Nat) (q : Nat)
    (hq : q ∈ st.out src) :
    ((mergeFinish st target src).pipe q).fromE = some target
    ∧ ((mergeFinish st target src).pipe q).receiverCanceled = true := by
  unfold mergeFinish
  simp only [SchedState.pipe_putEdge, signal_pipe, SchedState.pipe_setMaps]
  rw [mergeOutgoing_pipe, mergeIncoming_out]
  simp [hq]

theorem mergeFinish_incoming_src (st : SchedState) (target src : Nat) :
    alookup (mergeFinish st target src).incoming src = none := by
  unfold mergeFinish
  simp only [SchedState.incoming_putEdge, signal_incoming, SchedState.incoming_setMaps]
  rw [alookup_aerase]
  simp

theorem mergeFinish_outgoing_src (st : SchedState) (target src : Nat) :
    alookup (mergeFinish st target src).outgoing src = none := by
  unfold mergeFinish
  simp only [SchedState.outgoing_putEdge, signal_outgoing, SchedState.outgoing_setMaps]
  rw [alookup_aerase]
  simp

theorem mergeFinish_waitq_target (st : SchedState) (target src : Nat) :
    target ∈ (mergeFinish st target src).waitq := by
  unfold mergeFinish
  simp only [SchedState.waitq_putEdge]
  exact mem_waitq_signal _ target

theorem mergeFinish_exporters (st : SchedState) (target src : Nat) :
    ((mergeFinish st target src).edge target).secondaryExporters
      = (st.edge target).secondaryExporters ++ secondaryExportersFrom (st.edge src) := by
  unfold mergeFinish
  simp [SchedState.edge_putEdge, signal_edge, SchedState.edge_setMaps,
    mergeOutgoing_edge, mergeIncoming_edge]

/-- C1: a successful `mergeTo(target, src)` moves every pipe of
`incoming[src]` into `incoming[target]` with its `Target` rewritten, moves
every pipe of `outgoing[src]` into `outgoing[target]` with its `From`
rewritten and its receiver canceled, deletes `src` from both maps without
losing a pipe (the pending incoming count of `target` grows by exactly the
count `src` had), and signals `target`. -/
theorem mergeTo_transfers (st st' : SchedState) (target src : Nat)
    (hne : target ≠ src) (h : mergeTo st target src = (true, st')) :
    st'.inc target = st.inc target ++ st.inc src
    ∧ st'.out target = st.out target ++ st.out src
    ∧ (∀ p ∈ st.inc src, (st'.pipe p).target = target ∧ p ∈ st'.inc target)
    ∧ (∀ p ∈ st.out src, (st'.pipe p).fromE = some target
        ∧ (st'.pipe p).receiverCanceled = true ∧ p ∈ st'.out target)
    ∧ alookup st'.incoming src = none
    ∧ alookup st'.outgoing src = none
    ∧ (st'.inc target).length = (st.inc target).length + (st.inc src).length
    ∧ target ∈ st'.waitq := by
  have heq := mergeTo_success_eq h
  subst heq
  have hinc := mergeFinish_inc_target st target src hne
  have hout := mergeFinish_out_target st target src hne
  refine ⟨hinc, hout, ?_, ?_, mergeFinish_incoming_src st target src,
    mergeFinish_outgoing_src st target src, by rw [hinc]; simp,
    mergeFinish_waitq_target st target src⟩
  · intro p hp
    exact ⟨mergeFinish_pipe_inc st target src p hp,
      by rw [hinc]; exact List.mem_append_right _ hp⟩
  · intro p hp
    obtain ⟨h1, h2⟩ := mergeFinish_pipe_out st target src p hp
    exact ⟨h1, h2, by rw [hout]; exact List.mem_append_right _ hp⟩

/-- Example state for exercising a successful merge: edge 1 is the merge
target, edge 2 the source with one incoming pipe (10), one outgoing pipe
(11), and one dependency carrying a direct key, a slow-cache key and a
materialized result, under selector "s". -/
def exSrcEdge : EdgeState :=
  { exEdge with deps := [⟨[5], some 7, some 9⟩], depSelectors := ["s"] }

def exMerge : SchedState :=
  { exEmpty with
      edges := [(1, exEdge), (2, exSrcEdge)],
      pipes := [(10, ⟨2, some 3, false, false, false, false⟩),
                (11, ⟨4, some 2, false, false, false, false⟩)],
      incoming := [(2, [10])],
      outgoing := [(2, [11])] }

/-- Witness for C1: the concrete merge of edge 2 into edge 1. -/
theorem mergeTo_transfers_witness :
    ((mergeTo exMerge 1 2).2.pipe 10).target = 1
    ∧ ((mergeTo exMerge 1 2).2.pipe 11).receiverCanceled = true
    ∧ (mergeTo exMerge 1 2).2.inc 1 = [10]
    ∧ alookup (mergeTo exMerge 1 2).2.incoming 2 = none
    ∧ 1 ∈ (mergeTo exMerge 1 2).2.waitq := by
  have H := mergeTo_transfers exMerge ((mergeTo exMerge 1 2).2) 1 2 (by decide) rfl
  refine ⟨(H.2.2.1 10 (by decide)).1, (H.2.2.2.1 11 (by decide)).2.1, ?_, H.2.2.2.2.2.1, H.2.2.2.2.2.2.2⟩
  rw [H.1]
  decide

/-! ### Secondary exporter entries of a merge -/

theorem mem_exportersFromDeps (sels : List String) (x : ExpDep) :
    ∀ (deps : List DepState) (base j : Nat) (d : DepState),
      deps.get? j = some d →
      x ∈ depExporters (base + j) d (sels.getD (base + j) "") →
      x ∈ exportersFromDeps sels base deps := by
  intro deps
  induction deps with
  | nil => intro base j d hj; simp at hj
  | cons d0 rest ih =>
    intro base j d hj hx
    cases j with
    | zero =>
      rw [List.get?_cons_zero] at hj
      injection hj with hj
      subst hj
      simp only [Nat.add_zero] at hx
      exact List.mem_append_left _ hx
    | succ j' =>
      rw [List.get?_cons_succ] at hj
      refine List.mem_append_right _ (ih (base + 1) j' d hj ?_)
      have harith : base + 1 + j' = base + (j' + 1) := by omega
      rw [harith]
      exact hx

/-- C6 (amended): after a successful `mergeTo(target, src)`, for every
dependency `i` of `src`, each direct cache key and the materialized result's
cache key are appended to `target.secondaryExporters` paired with that
dependency's selector, while the slow-cache key is appended paired with the
empty (zero-value) selector. -/
theorem mergeTo_export_entries (st st' : SchedState) (target src : Nat)
    (h : mergeTo st target src = (true, st')) :
    ∀ i d, (st.edge src).deps.get? i = some d →
      (∀ k ∈ d.keys,
        (⟨i, ⟨k, (st.edge src).depSelectors.getD i ""⟩⟩ : ExpDep)
          ∈ (st'.edge target).secondaryExporters)
      ∧ (∀ sk, d.slowCacheKey = some sk →
        (⟨i, ⟨sk, ""⟩⟩ : ExpDep) ∈ (st'.edge target).secondaryExporters)
      ∧ (∀ rk, d.result = some rk →
        (⟨i, ⟨rk, (st.edge src).depSelectors.getD i ""⟩⟩ : ExpDep)
          ∈ (st'.edge target).secondaryExporters) := by
  have heq := mergeTo_success_eq h
  subst heq
  rw [mergeFinish_exporters]
  intro i d hd
  have hbase : ∀ x : ExpDep,
      x ∈ depExporters i d ((st.edge src).depSelectors.getD i "") →
      x ∈ secondaryExportersFrom (st.edge src) := by
    intro x hx
    have := mem_exportersFromDeps (st.edge src).depSelectors x (st.edge src).deps 0 i d
      (by simpa using hd)
    simp only [Nat.zero_add] at this
    exact this hx
  refine ⟨?_, ?_, ?_⟩
  · intro k hk
    refine List.mem_append_right _ (hbase _ ?_)
    unfold depExporters
    refine List.mem_append_left _ (List.mem_append_left _ ?_)
    exact List.mem_map_of_mem _ hk
  · intro sk hsk
    refine List.mem_append_right _ (hbase _ ?_)
    unfold depExporters
    refine List.mem_append_left _ (List.mem_append_right _ ?_)
    rw [hsk]
    simp
  · intro rk hrk
    refine List.mem_append_right _ (hbase _ ?_)
    unfold depExporters
    refine List.mem_append_right _ ?_
    rw [hrk]
    simp

/-- Counterexample for C6 as stated: in the concrete merge of edge 2 into
edge 1 the source dependency's selector is "s", yet the slow-cache key 7 is
exported with the empty selector — the entry paired with the dependency's
selector is absent. -/
theorem mergeTo_slow_selector_cex :
    (mergeTo exMerge 1 2).1 = true
    ∧ (⟨0, ⟨7, "s"⟩⟩ : ExpDep) ∉ ((mergeTo exMerge 1 2).2.edge 1).secondaryExporters
    ∧ (⟨0, ⟨7, ""⟩⟩ : ExpDep) ∈ ((mergeTo exMerge 1 2).2.edge 1).secondaryExporters := by
  decide

/-- Witness for the amended C6 at the concrete merge. -/
theorem mergeTo_export_entries_witness :
    (⟨0, ⟨5, "s"⟩⟩ : ExpDep) ∈ ((mergeTo exMerge 1 2).2.edge 1).secondaryExporters
    ∧ (⟨0, ⟨7, ""⟩⟩ : ExpDep) ∈ ((mergeTo exMerge 1 2).2.edge 1).secondaryExporters
    ∧ (⟨0, ⟨9, "s"⟩⟩ : ExpDep) ∈ ((mergeTo exMerge 1 2).2.edge 1).secondaryExporters := by
  have H := mergeTo_export_entries exMerge ((mergeTo exMerge 1 2).2) 1 2 rfl 0
    ⟨[5], some 7, some 9⟩ rfl
  exact ⟨H.1 5 (by decide), H.2.1 7 rfl, H.2.2 9 rfl⟩

/-- C10: the entries a successful merge appends to
`target.secondaryExporters` are computed solely from the source edge's
dependency metadata; the source's own `secondaryExporters` list (including
exporters it inherited from an earlier merge) is never read, so chained
merges drop the earlier edge's export metadata. -/
theorem mergeTo_exporters_frame (st st' : SchedState) (target src : Nat)
    (h : mergeTo st target src = (true, st')) :
    (st'.edge target).secondaryExporters
      = (st.edge target).secondaryExporters ++ secondaryExportersFrom (st.edge src)
    ∧ ∀ exps, secondaryExportersFrom { st.edge src with secondaryExporters := exps }
        = secondaryExportersFrom (st.edge src) := by
  have heq := mergeTo_success_eq h
  subst heq
  exact ⟨mergeFinish_exporters st target src, fun exps => rfl⟩

/-- Witness for C10 at the concrete merge: the source edge carries a
non-empty inherited exporter list which does not influence the appended
entries. -/
theorem mergeTo_exporters_frame_witness :
    ((mergeTo exMerge 1 2).2.edge 1).secondaryExporters
      = (exMerge.edge 1).secondaryExporters ++ secondaryExportersFrom (exMerge.edge 2)
    ∧ secondaryExportersFrom { exMerge.edge 2 with secondaryExporters := [⟨0, ⟨42, "x"⟩⟩] }
      = secondaryExportersFrom (exMerge.edge 2) := by
  have H := mergeTo_exporters_frame exMerge ((mergeTo exMerge 1 2).2) 1 2 rfl
  exact ⟨H.1, H.2 [⟨0, ⟨42, "x"⟩⟩]⟩

/-! ### Dispatch-level properties -/

theorem halfopen_iff {α : Type} (l1 l2 : List α)
    (hc1 : ¬((!l1.isEmpty && l2.isEmpty) = true))
    (hc2 : ¬((l1.isEmpty && !l2.isEmpty) = true)) :
    (l1 = [] ↔ l2 = []) := by
  cases l1 <;> cases l2 <;> simp_all

theorem dispatch_some_inv {u : SchedState → SchedState} {st : SchedState} {e : Nat}
    {st' : SchedState} {log : DispatchLog} (h : dispatch u st e = some (st', log)) :
    log.updates = (receivePhase st e (st.out e)).2
    ∧ log.hasActiveOutgoing = ((receivePhase st e (st.out e)).1.edge e).hasActiveOutgoing
    ∧ log.openIncoming = (pruneStep (u (receivePhase st e (st.out e)).1) e).2.1
    ∧ log.openOutgoing = (pruneStep (u (receivePhase st e (st.out e)).1) e).2.2
    ∧ log.merge = (mergePhase (pruneStep (u (receivePhase st e (st.out e)).1) e).1 e).2
    ∧ st' = (mergePhase (pruneStep (u (receivePhase st e (st.out e)).1) e).1 e).1
    ∧ (log.openIncoming = [] ↔ log.openOutgoing = []) := by
  simp only [dispatch] at h
  split at h
  · exact absurd h (by simp)
  · split at h
    · exact absurd h (by simp)
    · rename_i hc1 hc2
      rw [Option.some.injEq, Prod.mk.injEq] at h
      obtain ⟨h1, h2⟩ := h
      subst h1
      subst h2
      exact ⟨rfl, rfl, rfl, rfl, rfl, rfl, halfopen_iff _ _ hc1 hc2⟩

/-- C2: whenever a dispatch of `e` returns normally, its pruned incoming and
outgoing lists are either both empty or both non-empty; a half-open outcome
(exactly one side non-empty) makes the dispatch step fail hard instead of
returning. -/
theorem dispatch_halfopen (u : SchedState → SchedState) (st : SchedState) (e : Nat)
    (st' : SchedState) (log : DispatchLog) (h : dispatch u st e = some (st', log)) :
    (log.openIncoming = [] ↔ log.openOutgoing = []) :=
  (dispatch_some_inv h).2.2.2.2.2.2

/-- Witness for C2 at a concrete dispatch turn that returns normally. -/
theorem dispatch_halfopen_witness :
    (((dispatch (fun s => s) exMerge 2).getD (exMerge, default)).2.openIncoming = []
      ↔ ((dispatch (fun s => s) exMerge 2).getD (exMerge, default)).2.openOutgoing = []) :=
  dispatch_halfopen (fun s => s) exMerge 2
    ((dispatch (fun s => s) exMerge 2).getD (exMerge, default)).1
    ((dispatch (fun s => s) exMerge 2).getD (exMerge, default)).2 rfl

theorem mergePhase_spec (st : SchedState) (e : Nat) :
    (∀ k, (mergePhase st e).2.kdc = true → (mergePhase st e).2.curKey = some k →
      (mergePhase st e).2.loadOrStoreKey = some k)
    ∧ ((mergePhase st e).2.kdc = false → (mergePhase st e).2.loadOrStoreKey = none)
    ∧ (∀ o, (mergePhase st e).2.origEdge = some o →
        (mergePhase st e).2.mergeAttempt = some (o, e))
    ∧ ((mergePhase st e).2.mergeAttempt = none → (mergePhase st e).2.setEdgeCalls = [])
    ∧ (∀ o s, (mergePhase st e).2.mergeAttempt = some (o, s) →
        (mergePhase st e).2.setEdgeCalls =
          (if (mergePhase st e).2.mergeSucceeded then [(e, o)] else []))
    ∧ ((mergePhase st e).1.edge e).keysDidChange = false := by
  by_cases hk : (st.edge e).keysDidChange
  · cases hck : (st.edge e).currentIndexKey with
    | none =>
      have hred : mergePhase st e
          = (st.putEdge e { st.edge e with keysDidChange := false },
             ⟨true, none, none, none, none, false, []⟩) := by
        simp [mergePhase, hk, hck]
      rw [hred]
      refine ⟨?_, ?_, ?_, ?_, ?_, ?_⟩ <;> simp
    | some k =>
      cases hls : alookup st.index k with
      | some orig =>
        have hred : mergePhase st e
            = ((mergeTo st orig e).2.putEdge e
                 { (mergeTo st orig e).2.edge e with keysDidChange := false },
               ⟨true, some k, some k, some orig, some (orig, e), (mergeTo st orig e).1,
                if (mergeTo st orig e).1 then [(e, orig)] else []⟩) := by
          simp [mergePhase, loadOrStore, hk, hck, hls]
        rw [hred]
        refine ⟨?_, ?_, ?_, ?_, ?_, ?_⟩ <;> simp
      | none =>
        have hred : mergePhase st e
            = (({ st with index := ainsert st.index k e } : SchedState).putEdge e
                 { ({ st with index := ainsert st.index k e } : SchedState).edge e with
                     keysDidChange := false },
               ⟨true, some k, some k, none, none, false, []⟩) := by
          simp [mergePhase, loadOrStore, hk, hck, hls]
        rw [hred]
        refine ⟨?_, ?_, ?_, ?_, ?_, ?_⟩ <;> simp
  · have hred : mergePhase st e
        = (st, ⟨false, (st.edge e).currentIndexKey, none, none, none, false, []⟩) := by
      simp [mergePhase, hk]
    rw [hred]
    rw [Bool.not_eq_true] at hk
    refine ⟨?_, ?_, ?_, ?_, ?_, hk⟩ <;> simp

/-- C5: during a dispatch of `e`, when `keysDidChange` is observed together
with an available index key `k`, `LoadOrStore` is invoked with `k`; when it
reports an already-registered edge `origEdge`, `mergeTo(origEdge, e)` is
attempted, and `SetEdge(e.edge, origEdge)` is issued exactly when the merge
succeeds; in every normally-returning dispatch, `e.keysDidChange` is false at
completion. -/
theorem dispatch_merge_on_key_change (u : SchedState → SchedState) (st : SchedState)
    (e : Nat) (st' : SchedState) (log : DispatchLog)
    (h : dispatch u st e = some (st', log)) :
    (∀ k, log.merge.kdc = true → log.merge.curKey = some k →
      log.merge.loadOrStoreKey = some k)
    ∧ (∀ o, log.merge.origEdge = some o → log.merge.mergeAttempt = some (o, e))
    ∧ (log.merge.mergeAttempt = none → log.merge.setEdgeCalls = [])
    ∧ (∀ o s, log.merge.mergeAttempt = some (o, s) →
        log.merge.setEdgeCalls = (if log.merge.mergeSucceeded then [(e, o)] else []))
    ∧ (st'.edge e).keysDidChange = false := by
  obtain ⟨-, -, -, -, hm, hst, -⟩ := dispatch_some_inv h
  subst hst
  rw [hm]
  have S := mergePhase_spec (pruneStep (u (receivePhase st e (st.out e)).1) e).1 e
  exact ⟨S.1, S.2.2.1, S.2.2.2.1, S.2.2.2.2.1, S.2.2.2.2.2⟩

/-- Witness for C5 at a concrete dispatch turn. -/
theorem dispatch_merge_on_key_change_witness :
    ((((dispatch (fun s => s) exMerge 2).getD (exMerge, default)).1.edge 2).keysDidChange
      = false) :=
  (dispatch_merge_on_key_change (fun s => s) exMerge 2
    ((dispatch (fun s => s) exMerge 2).getD (exMerge, default)).1
    ((dispatch (fun s => s) exMerge 2).getD (exMerge, default)).2 rfl).2.2.2.2

/-- C8: in every normally-returning dispatch of `e`, the `updates` list holds
exactly the snapshotted outgoing receivers that reported a fresh update, in
snapshot order, and `hasActiveOutgoing` (reset at the start of the receive
loop) ends up true exactly when some snapshotted receiver is not yet
completed. -/
theorem dispatch_receive_updates (u : SchedState → SchedState) (st : SchedState)
    (e : Nat) (st' : SchedState) (log : DispatchLog)
    (hnd : (st.out e).Nodup) (h : dispatch u st e = some (st', log)) :
    log.updates = (st.out e).filter (fun p => (st.pipe p).hasUpdate)
    ∧ log.hasActiveOutgoing = (st.out e).any (fun p => !(st.pipe p).receiverCompleted) := by
  obtain ⟨hu, hh, -⟩ := dispatch_some_inv h
  obtain ⟨r1, r2⟩ := receivePhase_spec st e (st.out e) hnd
  exact ⟨hu.trans r1, hh.trans r2⟩

/-- Witness for C8 at a concrete dispatch turn with one live outgoing pipe. -/
theorem dispatch_receive_updates_witness :
    ((dispatch (fun s => s) exMerge 2).getD (exMerge, default)).2.updates
        = (exMerge.out 2).filter (fun p => (exMerge.pipe p).hasUpdate)
    ∧ ((dispatch (fun s => s) exMerge 2).getD (exMerge, default)).2.hasActiveOutgoing
        = (exMerge.out 2).any (fun p => !(exMerge.pipe p).receiverCompleted) :=
  dispatch_receive_updates (fun s => s) exMerge 2
    ((dispatch (fun s => s) exMerge 2).getD (exMerge, default)).1
    ((dispatch (fun s => s) exMerge 2).getD (exMerge, default)).2 (by decide) rfl

end BuildkitSched
